import Mathlib

/-!
Shallow embedding of `onet_scraper.py` (Onet news archive scraper).

The script is a two-stage pipeline:
1. `get_metadata` expands a date range, fetches one archive page per day,
   and accumulates (time, url, title) triples into a growing table;
2. `create_metadata_file` serialises the table to CSV;
3. `extract_and_save_articles` fetches each article page and writes
   lead + body paragraphs to a text file.

Network, HTML parsing and the filesystem are modelled as explicit
environments: a fetch function from URL to an abstract page, and a
write oracle saying whether a file write succeeds.  Python exceptions
are modelled with `Except`: an uncaught exception is `Except.error`,
caught exceptions are handled inside the loops exactly where the
source has `try`/`except`.  Python `datetime.date` values are embedded
as proleptic-Gregorian (year, month, day) records with the validity
checks of the `date` constructor (years 1..9999).
-/

/-! ## Calendar model (Python `datetime.date` / `timedelta`) -/

/-- Gregorian leap-year test, as used by `datetime.date`. -/
def isLeap (y : Nat) : Bool :=
  (y % 4 == 0 && y % 100 != 0) || y % 400 == 0

/-- Number of days in month `m` (1..12) of year `y`. -/
def daysInMonth (y m : Nat) : Nat :=
  if m = 2 then (if isLeap y then 29 else 28)
  else if m = 4 ∨ m = 6 ∨ m = 9 ∨ m = 11 then 30
  else 31

/-- A Python `datetime.date` value: a (year, month, day) record. -/
structure PyDate where
  year : Nat
  month : Nat
  day : Nat
deriving DecidableEq, Repr

/-- Validation performed by the `datetime.date` constructor
(`MINYEAR = 1`, `MAXYEAR = 9999`, month and day in calendar range). -/
def dateOk (D : PyDate) : Bool :=
  1 ≤ D.year && D.year ≤ 9999 && 1 ≤ D.month && D.month ≤ 12 &&
    1 ≤ D.day && D.day ≤ daysInMonth D.year D.month

/-- Structural well-formedness used in proofs: like `dateOk` but with no
upper bound on the year (so it is preserved by the day successor). -/
def WfDate (D : PyDate) : Prop :=
  1 ≤ D.year ∧ 1 ≤ D.month ∧ D.month ≤ 12 ∧ 1 ≤ D.day ∧
    D.day ≤ daysInMonth D.year D.month

/-- Calendar successor: the next day. -/
def nextDate (D : PyDate) : PyDate :=
  if D.day < daysInMonth D.year D.month then ⟨D.year, D.month, D.day + 1⟩
  else if D.month < 12 then ⟨D.year, D.month + 1, 1⟩
  else ⟨D.year + 1, 1, 1⟩

/-- `D + timedelta(days = n)` (CPython adds `n` to the date's ordinal;
for valid dates that is `n` iterations of the day successor). -/
def addDays (D : PyDate) (n : Nat) : PyDate :=
  nextDate^[n] D

/-- Number of leap years `z` with `1 ≤ z ≤ y`. -/
def leapsBefore (y : Nat) : Nat :=
  y / 4 - y / 100 + y / 400

/-- Days in all years strictly before year `y` (year 1 is day 0 here). -/
def daysBeforeYear (y : Nat) : Nat :=
  365 * (y - 1) + leapsBefore (y - 1)

/-- Days in the months of year `y` strictly before month `m`. -/
def daysBeforeMonth (y : Nat) : Nat → Nat
  | 0 => 0
  | m + 1 => if m = 0 then 0 else daysBeforeMonth y m + daysInMonth y m

/-- Python `date.toordinal()`: 0001-01-01 is ordinal 1. -/
def toOrdinal (D : PyDate) : Nat :=
  daysBeforeYear D.year + daysBeforeMonth D.year D.month + D.day

/-! ## Date formatting (`strftime("%Y-%m-%d")`) -/

/-- The decimal digit character for `n % 10`. -/
def dig (n : Nat) : Char :=
  Char.ofNat (48 + n % 10)

/-- Two-digit zero-padded decimal (`%m`, `%d`; months and days are < 100). -/
def pad2 (n : Nat) : List Char :=
  [dig (n / 10), dig n]

/-- Four-digit zero-padded decimal (`%Y`; Python years are ≤ 9999). -/
def pad4 (n : Nat) : List Char :=
  [dig (n / 1000), dig (n / 100), dig (n / 10), dig n]

/-- `D.strftime("%Y-%m-%d")`. -/
def fmtDate (D : PyDate) : String :=
  ⟨pad4 D.year ++ '-' :: (pad2 D.month ++ '-' :: pad2 D.day)⟩

/-- Lexicographic (dictionary) strict order on character lists, the
order used by string comparison. -/
def charListLt : List Char → List Char → Bool
  | [], [] => false
  | [], _ :: _ => true
  | _ :: _, [] => false
  | a :: as, b :: bs =>
    if a < b then true else if a = b then charListLt as bs else false

/-- Lexicographic strict order on strings. -/
def strLt (a b : String) : Bool :=
  charListLt a.data b.data

/-! ## Date Range Expander (lines 36-43 of the source) -/

/-- Python `str.split(sep)` for a one-character separator, at the
character level (`"a-b".split('-') = ["a", "b"]`, empty pieces kept). -/
def splitChar (sep : Char) : List Char → List (List Char)
  | [] => [[]]
  | c :: cs =>
    match splitChar sep cs with
    | [] => [[c]]
    | p :: ps => if c = sep then [] :: p :: ps else (c :: p) :: ps

/-- Python `str.strip()`: drop whitespace from both ends. -/
def pyStrip (l : List Char) : List Char :=
  ((l.dropWhile Char.isWhitespace).reverse.dropWhile Char.isWhitespace).reverse

/-- Python `sep.join(pieces)`. -/
def joinWith (sep : String) : List String → String
  | [] => ""
  | [l] => l
  | l :: ls => l ++ sep ++ joinWith sep ls

/-- `no_of_days = (end_date - start_date).days` (an integer; negative
when the end precedes the start). -/
def no_of_days (start_date end_date : PyDate) : Int :=
  (toOrdinal end_date : Int) - (toOrdinal start_date : Int)

/-- `date_list = [(start_date + timedelta(days=x)).strftime("%Y-%m-%d")
for x in range(no_of_days + 1)]`; `range` of a non-positive bound is empty. -/
def date_list (start_date end_date : PyDate) : List String :=
  (List.range (no_of_days start_date end_date + 1).toNat).map
    (fun x => fmtDate (addDays start_date x))

/-- `'https://wiadomosci.onet.pl/archiwum/' + date`. -/
def urlFor (d : String) : String :=
  "https://wiadomosci.onet.pl/archiwum/" ++ d

/-- `urls_list`. -/
def urls_list (start_date end_date : PyDate) : List String :=
  (date_list start_date end_date).map urlFor

/-! ## Archive Fetcher (`get_metadata`, lines 46-81) -/

/-- One `class="itemTitle"` anchor: its `href` attribute and its first
content node (the title text). -/
structure ArchiveItem where
  href : String
  text : String
deriving DecidableEq, Repr

/-- The `class='dayInArchive'` container of an archive page:
the raw texts of its `itemTime` children and its `itemTitle` anchors. -/
structure DayContainer where
  itemTimes : List String
  itemTitles : List ArchiveItem
deriving DecidableEq, Repr

/-- Result of `requests.get` on an archive URL: `fail` is any
`requests.RequestException` (network error, timeout, or the
`HTTPError` raised by `raise_for_status` on a non-2xx status);
`page c` is a successful fetch whose parsed HTML has day container `c`
(`none` when `content.find(class_='dayInArchive')` finds nothing). -/
inductive FetchResult where
  | fail
  | page (dayInArchive : Option DayContainer)
deriving DecidableEq

/-- One row of the metadata table (columns `date, time, url, title`). -/
structure Row where
  date : String
  time : String
  url : String
  title : String
deriving DecidableEq, Repr

/-- Python `zip` over four lists truncates to the shortest list. -/
def zip4 : List String → List String → List String → List String → List Row
  | a :: as, b :: bs, c :: cs, d :: ds => ⟨a, b, c, d⟩ :: zip4 as bs cs ds
  | _, _, _, _ => []

/-- The mutable state of the `get_metadata` loop: the accumulator lists
`times`, `urls`, `titles` (never reset between days), the growing
DataFrame `result` (`none` models the pristine `pd.DataFrame()` that has
no columns yet), and the log. -/
structure ScrapeState where
  times : List String
  urls : List String
  titles : List String
  result : Option (List Row)
  log : List String
deriving DecidableEq, Repr

/-- `times, urls, titles = [], [], []` and `result = pd.DataFrame()`. -/
def initState : ScrapeState :=
  ⟨[], [], [], none, []⟩

/-- `url.split('/')[-1]`. -/
def archiveDateOf (url : String) : String :=
  ⟨((splitChar '/' url.data).getLast?).getD []⟩

/-- The body of one successful iteration of the `get_metadata` loop:
append the day's stripped times, hrefs and titles to the accumulators,
then concatenate `zip([archive_date]*len(titles), times, urls, titles)`
onto the result DataFrame.  Note the appends target the whole-run
accumulators, and the zip re-reads them from the start. -/
def accumDay (st : ScrapeState) (url : String) (day : DayContainer) : ScrapeState :=
  let times := st.times ++ day.itemTimes.map (fun t => (⟨pyStrip t.data⟩ : String))
  let urls := st.urls ++ day.itemTitles.map (·.href)
  let titles := st.titles ++ day.itemTitles.map (·.text)
  let archive_date := archiveDateOf url
  let newRows := zip4 (List.replicate titles.length archive_date) times urls titles
  { times := times, urls := urls, titles := titles,
    result := some (st.result.getD [] ++ newRows), log := st.log }

/-- The `for url in urls_list` loop of `get_metadata`.  A fetch failure
is caught (`except requests.RequestException`), logged, and skipped with
`continue`.  A missing day container is not caught: `dayInArchive` is
`None` and `None.find_all(...)` raises an `AttributeError` that aborts
the whole call, modelled by `Except.error ()`. -/
def scrapeLoop (env : String → FetchResult) :
    List String → ScrapeState → Except Unit ScrapeState
  | [], st => .ok st
  | url :: rest, st =>
    match env url with
    | .fail =>
      scrapeLoop env rest
        { st with log := st.log ++ ["Error fetching URL " ++ url] }
    | .page none => .error ()
    | .page (some day) => scrapeLoop env rest (accumDay st url day)

/-- `get_metadata(start_date, end_date, headers)`: run the loop over the
archive URLs of the date range (the fixed headers do not influence the
model beyond the environment). -/
def get_metadata (env : String → FetchResult) (start_date end_date : PyDate) :
    Except Unit ScrapeState :=
  scrapeLoop env (urls_list start_date end_date) initState

/-- The rows of a finished run (empty table when the DataFrame is still
the pristine `pd.DataFrame()`). -/
def runRows (r : Except Unit ScrapeState) : List Row :=
  match r with
  | .ok st => st.result.getD []
  | .error _ => []

/-- The log of a finished run. -/
def runLog (r : Except Unit ScrapeState) : List String :=
  match r with
  | .ok st => st.log
  | .error _ => []

/-! ## Metadata Aggregator (`create_metadata_file`, lines 84-105) -/

/-- Double every quote character (the CSV escaping inside a quoted field). -/
def escapeQuotes : List Char → List Char
  | [] => []
  | c :: cs => if c = '"' then '"' :: '"' :: escapeQuotes cs else c :: escapeQuotes cs

/-- One CSV field under the csv module's QUOTE_MINIMAL policy used by
`DataFrame.to_csv`: a field containing a delimiter, a quote, or a line
terminator character is wrapped in quotes with inner quotes doubled. -/
def csvField (s : String) : String :=
  if s.data.any (fun c => c = ',' || c = '"' || c = '\n' || c = '\r') then
    ⟨'"' :: (escapeQuotes s.data ++ ['"'])⟩
  else s

/-- One data line of the CSV, fields in column order `date,time,url,title`. -/
def csvLine (r : Row) : String :=
  csvField r.date ++ "," ++ csvField r.time ++ "," ++ csvField r.url ++ "," ++ csvField r.title

/-- The header line written by `to_csv` for this table. -/
def csvHeader : String :=
  "date,time,url,title"

/-- `metadata.to_csv(filepath, index=False)`: header line, then one line
per row, each line terminated; no index column.  The pristine
`pd.DataFrame()` (no columns) serialises to a single empty line. -/
def to_csv : Option (List Row) → String
  | none => "\n"
  | some rows => joinWith "\n" (csvHeader :: rows.map csvLine) ++ "\n"

/-- `create_metadata_file(start_date, end_date, path, metadata)`: the
file written, as (path, content); the dates only appear in log text. -/
def create_metadata_file (path : String) (metadata : Option (List Row)) :
    String × String :=
  (path ++ "/onet_metadata.csv", to_csv metadata)

/-- Number of (terminated) lines of a file's content: occurrences of the
line terminator, which is what `wc -l` counts. -/
def lineCount (s : String) : Nat :=
  s.data.count '\n'

/-- The first line of a file's content. -/
def firstLine (s : String) : String :=
  ⟨s.data.takeWhile (fun c => c != '\n')⟩

/-! ## Article Fetcher (`extract_and_save_articles`, lines 108-162) -/

/-- Result of `requests.get(url)` plus parsing on an article page:
`exn msg` is any exception raised by the fetch/parse (no status check
and no timeout are applied on this path); `page lead paragraphs` gives
the text of the `class="hyphenate lead"` element (`none` when
`content.find` returns `None`) and the texts of all `<p>` elements. -/
inductive ArticleFetch where
  | exn (msg : String)
  | page (lead : Option String) (paragraphs : List String)
deriving DecidableEq

/-- `os.path.join(path, article_details['date'], url.split('/')[-1] + ".txt")`
for relative components. -/
def articleFilepath (path : String) (row : Row) : String :=
  path ++ "/" ++ row.date ++ "/" ++ archiveDateOf row.url ++ ".txt"

/-- Processing of one metadata row inside the `try` block: fetch and
parse the article (may raise), skip with a warning when the lead element
is missing, otherwise build `lead + ' ' + ' '.join(paragraph texts)` and
write it to the computed path (the write may raise an OS error, which is
the `writeOk` oracle returning false). -/
def processRow (env : String → ArticleFetch) (writeOk : String → Bool)
    (path : String) (row : Row) :
    Except String (Option (String × String)) :=
  match env row.url with
  | .exn msg => .error msg
  | .page none _ => .ok none
  | .page (some lead) paragraphs =>
    let full_text := lead ++ " " ++ joinWith " " paragraphs
    let filepath := articleFilepath path row
    if writeOk filepath then .ok (some (filepath, full_text))
    else .error "OSError"

/-- State of the article loop: files written so far and the log. -/
structure ArticleState where
  files : List (String × String)
  log : List String
deriving DecidableEq, Repr

/-- One iteration of the `for _, article_details in metadata.iterrows()`
loop: a missing lead logs a warning and continues; a successful write
logs saved; any exception is caught by `except Exception` and logged
with the offending URL, then the loop continues. -/
def articleStep (env : String → ArticleFetch) (writeOk : String → Bool)
    (path : String) (st : ArticleState) (row : Row) : ArticleState :=
  match processRow env writeOk path row with
  | .error msg =>
    { st with log := st.log ++ ["Error processing URL " ++ row.url ++ ". Error: " ++ msg] }
  | .ok none =>
    { st with log := st.log ++ ["No lead found for URL: " ++ row.url] }
  | .ok (some f) =>
    { files := st.files ++ [f],
      log := st.log ++ ["Data extracted and saved for URL: " ++ row.url] }

/-- The article loop over the remaining rows. -/
def extractLoop (env : String → ArticleFetch) (writeOk : String → Bool)
    (path : String) : List Row → ArticleState → ArticleState
  | [], st => st
  | row :: rest, st => extractLoop env writeOk path rest (articleStep env writeOk path st row)

/-- `extract_and_save_articles(start_date, end_date, path, metadata)`;
the date arguments only appear in log banners, which are omitted. -/
def extract_and_save_articles (env : String → ArticleFetch) (writeOk : String → Bool)
    (path : String) (metadata : List Row) : ArticleState :=
  extractLoop env writeOk path metadata ⟨[], []⟩

/-! ## CLI Entry Point (lines 165-199) -/

/-- `re.match(r'^\d{4}-\d{2}-\d{2}$', date_string)`: four digits, dash,
two digits, dash, two digits; Python's `$` also accepts one trailing
newline.  `\d` is modelled as the ASCII digits. -/
def is_valid_date (s : String) : Bool :=
  match s.data with
  | [a, b, c, d1, '-', e, f, '-', g, h] =>
    a.isDigit && b.isDigit && c.isDigit && d1.isDigit &&
      e.isDigit && f.isDigit && g.isDigit && h.isDigit
  | [a, b, c, d1, '-', e, f, '-', g, h, '\n'] =>
    a.isDigit && b.isDigit && c.isDigit && d1.isDigit &&
      e.isDigit && f.isDigit && g.isDigit && h.isDigit
  | _ => false

/-- Python `int(s)` on a decimal string: surrounding whitespace is
stripped; `none` is the `ValueError` for anything left that is not all
digits (signs and underscore separators cannot occur after the regex). -/
def pyInt (s : String) : Option Nat :=
  let t := pyStrip s.data
  if !t.isEmpty && t.all Char.isDigit then
    some (t.foldl (fun n c => 10 * n + (c.toNat - 48)) 0)
  else none

/-- The `datetime.date(y, m, d)` constructor: `none` is its `ValueError`. -/
def pyDateNew (y m d : Nat) : Option PyDate :=
  if 1 ≤ y && y ≤ 9999 && 1 ≤ m && m ≤ 12 && 1 ≤ d && d ≤ daysInMonth y m then
    some ⟨y, m, d⟩
  else none

/-- `date(*map(int, s.split('-')))`: `none` is any uncaught exception
(wrong number of parts, a part `int` rejects, or an invalid calendar date). -/
def parse_date_arg (s : String) : Option PyDate :=
  match (splitChar '-' s.data).map (fun p => pyInt ⟨p⟩) with
  | [some y, some m, some d] => pyDateNew y m d
  | _ => none

/-- Observable outcome of the `__main__` block before any network
activity: `exitInvalidFormat` is the logged error plus `exit(1)`;
`uncaughtError` is an uncaught exception from `date(...)`;
`pipeline s e` means execution reaches the pipeline
(`get_metadata` → `create_metadata_file` → `extract_and_save_articles`),
which is where all network activity happens. -/
inductive MainResult where
  | exitInvalidFormat
  | uncaughtError
  | pipeline (start_date_obj end_date_obj : PyDate)
deriving DecidableEq, Repr

/-- The `__main__` block: validate both date strings against the regex,
exit with status 1 on failure, otherwise construct the two `date`
objects and run the pipeline. -/
def mainRun (start_date end_date : String) : MainResult :=
  if !(is_valid_date start_date && is_valid_date end_date) then
    .exitInvalidFormat
  else
    match parse_date_arg start_date, parse_date_arg end_date with
    | some s, some e => .pipeline s e
    | _, _ => .uncaughtError

/-! ## Helper lemmas -/

theorem zip4_length (as bs cs ds : List String) :
    (zip4 as bs cs ds).length =
      min (min as.length bs.length) (min cs.length ds.length) := by
  induction as generalizing bs cs ds with
  | nil => simp [zip4]
  | cons a as ih =>
    cases bs with
    | nil => simp [zip4]
    | cons b bs =>
      cases cs with
      | nil => simp [zip4]
      | cons c cs =>
        cases ds with
        | nil => simp [zip4]
        | cons d ds => simp [zip4, ih]; omega

/-! ## Archive Fetcher claims -/

/-- C10: on a single-day run whose archive page yields `T` time items and
`U` title items, `get_metadata` emits exactly `min T U` rows (Python's
`zip` truncates the parallel lists to the shortest), with no error and
no log entry about the dropped excess items. -/
theorem zip_truncation_min_rows (ts : List String) (items : List ArchiveItem) :
    (runRows (get_metadata (fun _ => FetchResult.page (some ⟨ts, items⟩))
        ⟨2024, 1, 1⟩ ⟨2024, 1, 1⟩)).length = min ts.length items.length ∧
    runLog (get_metadata (fun _ => FetchResult.page (some ⟨ts, items⟩))
        ⟨2024, 1, 1⟩ ⟨2024, 1, 1⟩) = [] := by
  have hu : urls_list ⟨2024, 1, 1⟩ ⟨2024, 1, 1⟩ =
      ["https://wiadomosci.onet.pl/archiwum/2024-01-01"] := by decide
  rw [get_metadata, hu]
  simp [scrapeLoop, accumDay, initState, runRows, runLog, zip4_length]
  omega

/-- C1: the intended contract (each day contributes exactly its own
rows, tagged with its own date, no duplication) is violated by the code:
the accumulator lists `times`, `urls`, `titles` are never reset between
days, so on a two-day run with one item per day the second day re-emits
the first day's triple tagged with the second day's date, yielding three
rows instead of two. -/
theorem growing_accumulator_duplicates :
    get_metadata (fun u =>
        if u = "https://wiadomosci.onet.pl/archiwum/2024-01-01" then
          FetchResult.page (some ⟨["10:00"], [⟨"https://x/art-1", "T1"⟩]⟩)
        else
          FetchResult.page (some ⟨["11:00"], [⟨"https://x/art-2", "T2"⟩]⟩))
      ⟨2024, 1, 1⟩ ⟨2024, 1, 2⟩ =
    Except.ok
      { times := ["10:00", "11:00"],
        urls := ["https://x/art-1", "https://x/art-2"],
        titles := ["T1", "T2"],
        result := some
          [⟨"2024-01-01", "10:00", "https://x/art-1", "T1"⟩,
           ⟨"2024-01-02", "10:00", "https://x/art-1", "T1"⟩,
           ⟨"2024-01-02", "11:00", "https://x/art-2", "T2"⟩],
        log := [] } := by
  rfl

/-- C3 counterexample: on a two-day run whose second archive page lacks
the `dayInArchive` container, the run is aborted by the unhandled
`AttributeError` (`None.find_all`), instead of skipping that date with a
log entry and continuing as the claim states. -/
theorem missing_container_aborts_run :
    get_metadata (fun u =>
        if u = "https://wiadomosci.onet.pl/archiwum/2024-01-01" then
          FetchResult.page (some ⟨["10:00"], [⟨"https://x/art-1", "T1"⟩]⟩)
        else FetchResult.page none)
      ⟨2024, 1, 1⟩ ⟨2024, 1, 2⟩ = Except.error () := by
  rfl

/-- C3 (amended): a date whose fetched archive page has no
`dayInArchive` container is not treated like a fetch failure: the
`except` clause only catches `requests.RequestException`, so the
`AttributeError` on the `None` container propagates and aborts the whole
run at that date, processing no further dates. -/
theorem missing_container_unhandled (env : String → FetchResult) (url : String)
    (rest : List String) (st : ScrapeState)
    (h : env url = FetchResult.page none) :
    scrapeLoop env (url :: rest) st = Except.error () := by
  simp [scrapeLoop, h]

theorem missing_container_unhandled_witness :
    scrapeLoop (fun _ => FetchResult.page none) [urlFor "2024-01-01"] initState =
      Except.error () :=
  missing_container_unhandled _ _ _ _ rfl

/-- C4: a date whose archive fetch raises a `requests.RequestException`
(network failure, timeout, or `raise_for_status` on a non-2xx status
such as 404) is skipped: the error is logged, the accumulators and the
result table are left untouched (so the date contributes zero rows), and
the loop continues with the remaining dates without raising. -/
theorem fetch_failure_skips_date (env : String → FetchResult) (url : String)
    (rest : List String) (st : ScrapeState)
    (h : env url = FetchResult.fail) :
    scrapeLoop env (url :: rest) st =
      scrapeLoop env rest
        { st with log := st.log ++ ["Error fetching URL " ++ url] } := by
  simp [scrapeLoop, h]

theorem fetch_failure_skips_date_witness :
    scrapeLoop (fun _ => FetchResult.fail) [urlFor "2024-01-01"] initState =
      scrapeLoop (fun _ => FetchResult.fail) []
        { initState with
            log := initState.log ++ ["Error fetching URL " ++ urlFor "2024-01-01"] } :=
  fetch_failure_skips_date _ _ _ _ rfl

/-! ## Article Fetcher claims -/

/-- C5: for an article page whose lead element is present, the text
written to the article's file is the lead text, a single space, then the
texts of all paragraph elements of the page joined by single spaces, at
path `<base>/<date>/<last URL segment>.txt`. -/
theorem article_text_concatenation (env : String → ArticleFetch)
    (writeOk : String → Bool) (path : String) (st : ArticleState) (row : Row)
    (rest : List Row) (lead : String) (paragraphs : List String)
    (h : env row.url = ArticleFetch.page (some lead) paragraphs)
    (hw : writeOk (articleFilepath path row) = true) :
    extractLoop env writeOk path (row :: rest) st =
      extractLoop env writeOk path rest
        { files := st.files ++
            [(articleFilepath path row, lead ++ " " ++ joinWith " " paragraphs)],
          log := st.log ++ ["Data extracted and saved for URL: " ++ row.url] } := by
  simp [extractLoop, articleStep, processRow, h, hw]

theorem article_text_concatenation_witness :
    extract_and_save_articles (fun _ => ArticleFetch.page (some "L") ["P"])
      (fun _ => true) "out" [⟨"2024-01-01", "10:00", "https://x/art-1", "T"⟩] =
      { files := [("out/2024-01-01/art-1.txt", "L P")],
        log := ["Data extracted and saved for URL: https://x/art-1"] } := by
  rw [extract_and_save_articles,
    article_text_concatenation _ _ _ _ _ _ "L" ["P"] rfl rfl]
  rfl

/-- C6: a metadata row whose article page has no lead element is skipped
with a logged warning: no file is written for it, the loop is not
aborted, and the remaining rows are still processed. -/
theorem missing_lead_skips_article (env : String → ArticleFetch)
    (writeOk : String → Bool) (path : String) (st : ArticleState) (row : Row)
    (rest : List Row) (paragraphs : List String)
    (h : env row.url = ArticleFetch.page none paragraphs) :
    extractLoop env writeOk path (row :: rest) st =
      extractLoop env writeOk path rest
        { st with log := st.log ++ ["No lead found for URL: " ++ row.url] } := by
  simp [extractLoop, articleStep, processRow, h]

theorem missing_lead_skips_article_witness :
    extract_and_save_articles
      (fun u => if u = "https://x/no-lead" then ArticleFetch.page none ["P"]
                else ArticleFetch.page (some "L2") ["P2"])
      (fun _ => true) "out"
      [⟨"2024-01-01", "10:00", "https://x/no-lead", "A"⟩,
       ⟨"2024-01-01", "11:00", "https://x/art-2", "B"⟩] =
      { files := [("out/2024-01-01/art-2.txt", "L2 P2")],
        log := ["No lead found for URL: https://x/no-lead",
                "Data extracted and saved for URL: https://x/art-2"] } := by
  rw [extract_and_save_articles, missing_lead_skips_article _ _ _ _ _ _ ["P"] rfl]
  rfl

/-- C8: any exception raised while processing one metadata row (the
fetch raising, or an OS error on the write) is caught by the
`except Exception` clause, logged together with the offending URL, and
the loop simply continues with the next row; the row's exception never
aborts the loop and the row is not retried. -/
theorem row_exception_isolated (env : String → ArticleFetch)
    (writeOk : String → Bool) (path : String) (st : ArticleState) (row : Row)
    (rest : List Row) (msg : String)
    (h : processRow env writeOk path row = Except.error msg) :
    extractLoop env writeOk path (row :: rest) st =
      extractLoop env writeOk path rest
        { st with log := st.log ++
            ["Error processing URL " ++ row.url ++ ". Error: " ++ msg] } := by
  simp [extractLoop, articleStep, h]

theorem row_exception_isolated_witness :
    extract_and_save_articles
      (fun u => if u = "https://x/broken" then ArticleFetch.exn "ConnectionError"
                else ArticleFetch.page (some "L2") ["P2"])
      (fun _ => true) "out"
      [⟨"2024-01-01", "10:00", "https://x/broken", "A"⟩,
       ⟨"2024-01-01", "11:00", "https://x/art-2", "B"⟩] =
      { files := [("out/2024-01-01/art-2.txt", "L2 P2")],
        log := ["Error processing URL https://x/broken. Error: ConnectionError",
                "Data extracted and saved for URL: https://x/art-2"] } := by
  rw [extract_and_save_articles,
    row_exception_isolated
      (fun u => if u = "https://x/broken" then ArticleFetch.exn "ConnectionError"
                else ArticleFetch.page (some "L2") ["P2"])
      (fun _ => true) "out" ⟨[], []⟩
      ⟨"2024-01-01", "10:00", "https://x/broken", "A"⟩
      [⟨"2024-01-01", "11:00", "https://x/art-2", "B"⟩] "ConnectionError" rfl]
  rfl

/-! ## Metadata Aggregator claims -/

theorem mem_escapeQuotes {c : Char} : ∀ {l : List Char},
    c ∈ escapeQuotes l → c ∈ l ∨ c = '"' := by
  intro l
  induction l with
  | nil => intro h; simp [escapeQuotes] at h
  | cons a as ih =>
    intro h
    simp only [escapeQuotes] at h
    by_cases ha : a = '"'
    · rw [if_pos ha] at h
      rcases List.mem_cons.mp h with h1 | h
      · right; exact h1
      rcases List.mem_cons.mp h with h1 | h
      · right; exact h1
      rcases ih h with h' | h'
      · left; exact List.mem_cons_of_mem _ h'
      · right; exact h'
    · rw [if_neg ha] at h
      rcases List.mem_cons.mp h with h1 | h
      · left; rw [h1]; exact List.mem_cons_self _ _
      rcases ih h with h' | h'
      · left; exact List.mem_cons_of_mem _ h'
      · right; exact h'

theorem csvField_no_nl {s : String} (h : '\n' ∉ s.data) :
    '\n' ∉ (csvField s).data := by
  unfold csvField
  split
  · intro hmem
    have hmem' : '\n' ∈ '"' :: (escapeQuotes s.data ++ ['"']) := hmem
    rcases List.mem_cons.mp hmem' with h1 | h2
    · exact absurd h1 (by decide)
    · rcases List.mem_append.mp h2 with h3 | h3
      · rcases mem_escapeQuotes h3 with h4 | h4
        · exact h h4
        · exact absurd h4 (by decide)
      · exact absurd h3 (by decide)
  · exact h

theorem csvLine_no_nl {r : Row} (hd : '\n' ∉ r.date.data)
    (ht : '\n' ∉ r.time.data) (hu : '\n' ∉ r.url.data)
    (hl : '\n' ∉ r.title.data) : '\n' ∉ (csvLine r).data := by
  unfold csvLine
  simp only [String.data_append, List.mem_append, not_or]
  have hc : '\n' ∉ ("," : String).data := by decide
  exact ⟨⟨⟨⟨⟨⟨csvField_no_nl hd, hc⟩, csvField_no_nl ht⟩, hc⟩,
    csvField_no_nl hu⟩, hc⟩, csvField_no_nl hl⟩

theorem count_nl_joinWith : ∀ (ls : List String),
    (∀ l ∈ ls, '\n' ∉ l.data) →
    (joinWith "\n" ls).data.count '\n' = ls.length - 1
  | [], _ => by simp [joinWith]
  | [l], h => by
    simp only [joinWith, List.length_cons, List.length_nil]
    exact List.count_eq_zero.mpr (h l (by simp))
  | l :: l2 :: ls, h => by
    have htail := count_nl_joinWith (l2 :: ls) (fun x hx => h x (by simp [hx]))
    have hzero : l.data.count '\n' = 0 :=
      List.count_eq_zero.mpr (h l (by simp))
    have hnl : ("\n" : String).data.count '\n' = 1 := by decide
    simp only [joinWith, String.data_append, List.count_append]
    rw [htail, hzero, hnl]
    simp only [List.length_cons]
    omega

theorem takeWhile_until_nl : ∀ (xs t : List Char), (∀ x ∈ xs, x ≠ '\n') →
    (xs ++ '\n' :: t).takeWhile (fun c => c != '\n') = xs
  | [], t, _ => by simp
  | a :: xs, t, h => by
    have ha : (a != '\n') = true := by
      simpa using h a (by simp)
    simp only [List.cons_append, List.takeWhile_cons, ha, if_true]
    rw [takeWhile_until_nl xs t (fun x hx => h x (by simp [hx]))]

/-- C7 counterexample: two reachable violations of the claim.  (a) For
a one-row table whose title field contains a newline, the written CSV
has 3 physical lines, not K + 1 = 2: the field is quoted, but the
embedded newline still terminates a physical line.  (b) For the
reachable K = 0 pristine `pd.DataFrame()` — the metadata table of a run
whose date range is empty or whose every fetch failed, so the loop
never concatenated columns — the written file is a single empty line:
its first line is not the `date,time,url,title` header. -/
theorem csv_newline_breaks_line_count :
    (lineCount (to_csv (some [⟨"2024-01-01", "10:00", "https://x/a", "a\nb"⟩])) = 3 ∧
     lineCount (to_csv (some [⟨"2024-01-01", "10:00", "https://x/a", "a\nb"⟩])) ≠ 1 + 1) ∧
    (lineCount (to_csv none) = 0 + 1 ∧
     firstLine (to_csv none) = "" ∧
     firstLine (to_csv none) ≠ csvHeader) := by
  decide

/-- C7 (amended): for every metadata table that carries the four
columns (at least one archive day was processed, so the DataFrame was
concatenated at least once) and whose K rows have no newline character
in any field, the CSV written by `create_metadata_file` has exactly
K + 1 lines — a header line reading `date,time,url,title` (no index
column) followed by one line per row — including K = 0.  Two reachable
exceptions: a field containing a newline is quoted but still spans
extra physical lines, and the pristine `pd.DataFrame()` of a run that
processed no day (empty date range or every fetch failed) serialises to
a single empty line with no header. -/
theorem csv_line_count_and_header (rows : List Row)
    (h : ∀ r ∈ rows, '\n' ∉ r.date.data ∧ '\n' ∉ r.time.data ∧
        '\n' ∉ r.url.data ∧ '\n' ∉ r.title.data) :
    (lineCount ((create_metadata_file "out" (some rows)).2) = rows.length + 1 ∧
     firstLine ((create_metadata_file "out" (some rows)).2) = csvHeader) ∧
    (lineCount ((create_metadata_file "out" none).2) = 0 + 1 ∧
     firstLine ((create_metadata_file "out" none).2) = "") := by
  have hlines : ∀ l ∈ csvHeader :: rows.map csvLine, '\n' ∉ l.data := by
    intro l hl
    rcases List.mem_cons.mp hl with hl | hl
    · subst hl; decide
    · rcases List.mem_map.mp hl with ⟨r, hr, hrl⟩
      subst hrl
      obtain ⟨h1, h2, h3, h4⟩ := h r hr
      exact csvLine_no_nl h1 h2 h3 h4
  refine ⟨⟨?_, ?_⟩, by decide⟩
  · show (to_csv (some rows)).data.count '\n' = rows.length + 1
    rw [to_csv, String.data_append, List.count_append, count_nl_joinWith _ hlines]
    have hnl : ("\n" : String).data.count '\n' = 1 := by decide
    rw [hnl]
    simp only [List.length_cons, List.length_map]
    omega
  · show firstLine (to_csv (some rows)) = csvHeader
    rw [to_csv]
    unfold firstLine
    have hhead : ∀ x ∈ csvHeader.data, x ≠ '\n' := by decide
    have hone : ("\n" : String).data = ['\n'] := rfl
    cases rows with
    | nil =>
      have hdata : (joinWith "\n" (csvHeader :: List.map csvLine []) ++ "\n").data =
          csvHeader.data ++ '\n' :: [] := by
        simp [joinWith, String.data_append, hone]
      rw [hdata, takeWhile_until_nl _ _ hhead]
    | cons r rs =>
      have hdata : (joinWith "\n" (csvHeader :: List.map csvLine (r :: rs)) ++ "\n").data =
          csvHeader.data ++ '\n' ::
            ((joinWith "\n" (List.map csvLine (r :: rs))).data ++ ['\n']) := by
        simp [joinWith, String.data_append, hone]
      rw [hdata, takeWhile_until_nl _ _ hhead]

theorem csv_line_count_and_header_witness :
    (lineCount ((create_metadata_file "out"
        (some [⟨"2024-01-01", "10:00", "https://x/a", "Title, with \"quotes\""⟩])).2) = 1 + 1 ∧
     firstLine ((create_metadata_file "out"
        (some [⟨"2024-01-01", "10:00", "https://x/a", "Title, with \"quotes\""⟩])).2) = csvHeader) ∧
    (lineCount ((create_metadata_file "out" none).2) = 0 + 1 ∧
     firstLine ((create_metadata_file "out" none).2) = "") :=
  csv_line_count_and_header
    [⟨"2024-01-01", "10:00", "https://x/a", "Title, with \"quotes\""⟩] (by decide)

/-! ## CLI Entry Point claims -/

/-- C9 counterexample: "2024-13-01" matches the regex
`^\d{4}-\d{2}-\d{2}$`, so the program does not exit with the logged
format error; but `date(2024, 13, 1)` raises an uncaught `ValueError`,
so the run crashes before reaching the pipeline instead of proceeding
to it as the claim states. -/
theorem format_valid_date_crashes :
    is_valid_date "2024-13-01" = true ∧
    mainRun "2024-13-01" "2024-12-31" = MainResult.uncaughtError ∧
    ∀ s e, mainRun "2024-13-01" "2024-12-31" ≠ MainResult.pipeline s e := by
  refine ⟨by decide, by decide, fun s e h => ?_⟩
  have h' : MainResult.uncaughtError = MainResult.pipeline s e := by
    rw [← h]; rfl
  exact MainResult.noConfusion h'

/-- C9 (amended): when either date string fails the regex
`^\d{4}-\d{2}-\d{2}$`, the program logs an error and exits with status 1
before any network activity (all network work lives in the pipeline).
When both match, the strings are handed to `date(...)`: if both denote
valid calendar dates the program proceeds to the pipeline; otherwise
(e.g. month 13) `date(...)` raises an uncaught ValueError, which also
happens before any network activity. -/
theorem cli_date_validation (sArg eArg : String) :
    (¬(is_valid_date sArg = true ∧ is_valid_date eArg = true) →
      mainRun sArg eArg = MainResult.exitInvalidFormat) ∧
    (∀ s e, is_valid_date sArg = true → is_valid_date eArg = true →
      parse_date_arg sArg = some s → parse_date_arg eArg = some e →
      mainRun sArg eArg = MainResult.pipeline s e) ∧
    (is_valid_date sArg = true → is_valid_date eArg = true →
      (parse_date_arg sArg = none ∨ parse_date_arg eArg = none) →
      mainRun sArg eArg = MainResult.uncaughtError) := by
  refine ⟨?_, ?_, ?_⟩
  · intro h
    rw [mainRun, if_pos]
    simp only [Bool.not_eq_true', Bool.and_eq_false_iff]
    by_cases hs : is_valid_date sArg = true
    · right
      by_cases he : is_valid_date eArg = true
      · exact absurd ⟨hs, he⟩ h
      · simpa using he
    · left; simpa using hs
  · intro s e hs he hps hpe
    rw [mainRun, if_neg (by simp [hs, he]), hps, hpe]
  · intro hs he hnone
    rw [mainRun, if_neg (by simp [hs, he])]
    rcases hnone with hn | hn
    · rw [hn]
    · rw [hn]
      cases parse_date_arg sArg <;> rfl

theorem cli_date_validation_witness :
    mainRun "2024-01-01" "2024-01-02" =
      MainResult.pipeline ⟨2024, 1, 1⟩ ⟨2024, 1, 2⟩ :=
  (cli_date_validation "2024-01-01" "2024-01-02").2.1 ⟨2024, 1, 1⟩ ⟨2024, 1, 2⟩
    (by decide) (by decide) (by decide) (by decide)

/-! ## Calendar lemmas for the Date Range Expander -/

theorem daysInMonth_pos (y m : Nat) : 1 ≤ daysInMonth y m := by
  unfold daysInMonth
  split_ifs <;> omega

theorem daysInMonth_twelve (y : Nat) : daysInMonth y 12 = 31 := rfl

theorem daysBeforeMonth_succ (y m : Nat) (h : 1 ≤ m) :
    daysBeforeMonth y (m + 1) = daysBeforeMonth y m + daysInMonth y m := by
  cases m with
  | zero => omega
  | succ k => simp [daysBeforeMonth]

theorem daysBeforeMonth_year (y : Nat) :
    daysBeforeMonth y 12 + daysInMonth y 12 =
      365 + (if isLeap y = true then 1 else 0) := by
  by_cases hl : isLeap y = true <;> simp [daysBeforeMonth, daysInMonth, hl]

theorem leapsBefore_succ (y : Nat) (h : 1 ≤ y) :
    leapsBefore y = leapsBefore (y - 1) + (if isLeap y = true then 1 else 0) := by
  have hiff : isLeap y = true ↔ (y % 4 = 0 ∧ ¬y % 100 = 0) ∨ y % 400 = 0 := by
    simp [isLeap]
  unfold leapsBefore
  by_cases hl : isLeap y = true
  · rw [if_pos hl]
    rw [hiff] at hl
    rcases hl with ⟨h4, h100⟩ | h400 <;> omega
  · rw [if_neg hl]
    rw [hiff] at hl
    push_neg at hl
    omega

theorem daysBeforeYear_succ (y : Nat) (h : 1 ≤ y) :
    daysBeforeYear (y + 1) =
      daysBeforeYear y + 365 + (if isLeap y = true then 1 else 0) := by
  unfold daysBeforeYear
  rw [Nat.add_sub_cancel, leapsBefore_succ y h]
  omega

theorem wf_nextDate {D : PyDate} (h : WfDate D) : WfDate (nextDate D) := by
  obtain ⟨h1, h2, h3, h4, h5⟩ := h
  unfold nextDate
  split_ifs with hd hm
  · refine ⟨h1, h2, h3, ?_, ?_⟩
    · show 1 ≤ D.day + 1
      omega
    · show D.day + 1 ≤ daysInMonth D.year D.month
      omega
  · refine ⟨h1, ?_, ?_, le_refl 1, ?_⟩
    · show 1 ≤ D.month + 1
      omega
    · show D.month + 1 ≤ 12
      omega
    · show 1 ≤ daysInMonth D.year (D.month + 1)
      exact daysInMonth_pos _ _
  · refine ⟨?_, le_refl 1, ?_, le_refl 1, ?_⟩
    · show 1 ≤ D.year + 1
      omega
    · show (1 : Nat) ≤ 12
      omega
    · show 1 ≤ daysInMonth (D.year + 1) 1
      exact daysInMonth_pos _ _

theorem toOrdinal_nextDate {D : PyDate} (h : WfDate D) :
    toOrdinal (nextDate D) = toOrdinal D + 1 := by
  obtain ⟨h1, h2, h3, h4, h5⟩ := h
  unfold nextDate
  split_ifs with hd hm
  · show daysBeforeYear D.year + daysBeforeMonth D.year D.month + (D.day + 1) =
      daysBeforeYear D.year + daysBeforeMonth D.year D.month + D.day + 1
    omega
  · show daysBeforeYear D.year + daysBeforeMonth D.year (D.month + 1) + 1 =
      daysBeforeYear D.year + daysBeforeMonth D.year D.month + D.day + 1
    rw [daysBeforeMonth_succ _ _ h2]
    omega
  · have hm12 : D.month = 12 := by omega
    rw [hm12] at hd h5
    rw [daysInMonth_twelve] at hd h5
    show daysBeforeYear (D.year + 1) + daysBeforeMonth (D.year + 1) 1 + 1 =
      daysBeforeYear D.year + daysBeforeMonth D.year D.month + D.day + 1
    have hb1 : daysBeforeMonth (D.year + 1) 1 = 0 := rfl
    have hy := daysBeforeYear_succ D.year h1
    have hmn := daysBeforeMonth_year D.year
    rw [daysInMonth_twelve] at hmn
    rw [hm12, hb1]
    by_cases hl : isLeap D.year = true <;> simp [hl] at hy hmn <;> omega

theorem addDays_succ (D : PyDate) (k : Nat) :
    addDays D (k + 1) = nextDate (addDays D k) :=
  Function.iterate_succ_apply' nextDate k D

theorem wf_addDays {D : PyDate} (h : WfDate D) (n : Nat) : WfDate (addDays D n) := by
  induction n with
  | zero => exact h
  | succ k ih =>
    rw [addDays_succ]
    exact wf_nextDate ih

theorem toOrdinal_addDays {D : PyDate} (h : WfDate D) (n : Nat) :
    toOrdinal (addDays D n) = toOrdinal D + n := by
  induction n with
  | zero => rfl
  | succ k ih =>
    rw [addDays_succ, toOrdinal_nextDate (wf_addDays h k), ih]
    omega

theorem daysBeforeYear_mono {a b : Nat} (h1 : 1 ≤ a) (h : a ≤ b) :
    daysBeforeYear a ≤ daysBeforeYear b := by
  induction b with
  | zero => omega
  | succ k ih =>
    by_cases hak : a ≤ k
    · refine le_trans (ih hak) ?_
      have hk1 : 1 ≤ k := le_trans h1 hak
      have hs := daysBeforeYear_succ k hk1
      by_cases hl : isLeap k = true <;> simp [hl] at hs <;> omega
    · have : a = k + 1 := by omega
      rw [this]

theorem daysBeforeMonth_mono (y : Nat) {a b : Nat} (h : a ≤ b) :
    daysBeforeMonth y a ≤ daysBeforeMonth y b := by
  induction b with
  | zero =>
    have : a = 0 := by omega
    rw [this]
  | succ k ih =>
    by_cases hak : a ≤ k
    · refine le_trans (ih hak) ?_
      cases k with
      | zero => simp [daysBeforeMonth]
      | succ j =>
        rw [daysBeforeMonth_succ y (j + 1) (by omega)]
        omega
    · have : a = k + 1 := by omega
      rw [this]

theorem toOrdinal_lower {D : PyDate} (h : WfDate D) :
    daysBeforeYear D.year < toOrdinal D := by
  obtain ⟨h1, h2, h3, h4, h5⟩ := h
  unfold toOrdinal
  omega

theorem toOrdinal_upper {D : PyDate} (h : WfDate D) :
    toOrdinal D ≤ daysBeforeYear (D.year + 1) := by
  obtain ⟨h1, h2, h3, h4, h5⟩ := h
  have hstep : daysBeforeMonth D.year D.month + D.day ≤
      daysBeforeMonth D.year (D.month + 1) := by
    rw [daysBeforeMonth_succ _ _ h2]
    omega
  have hmon : daysBeforeMonth D.year (D.month + 1) ≤ daysBeforeMonth D.year 13 :=
    daysBeforeMonth_mono _ (by omega)
  have h13 : daysBeforeMonth D.year 13 =
      365 + (if isLeap D.year = true then 1 else 0) := by
    rw [daysBeforeMonth_succ _ 12 (by omega)]
    exact daysBeforeMonth_year D.year
  have hy := daysBeforeYear_succ D.year h1
  unfold toOrdinal
  by_cases hl : isLeap D.year = true <;> simp [hl] at h13 hy <;> omega

theorem year_le_of_ord_le {D E : PyDate} (hD : WfDate D) (hE : WfDate E)
    (h : toOrdinal D ≤ toOrdinal E) : D.year ≤ E.year := by
  by_contra hgt
  push_neg at hgt
  have hu : toOrdinal E ≤ daysBeforeYear (E.year + 1) := toOrdinal_upper hE
  have hm : daysBeforeYear (E.year + 1) ≤ daysBeforeYear D.year :=
    daysBeforeYear_mono (by omega) (by omega)
  have hlow : daysBeforeYear D.year < toOrdinal D := toOrdinal_lower hD
  omega

theorem toOrdinal_inj {D E : PyDate} (hD : WfDate D) (hE : WfDate E)
    (h : toOrdinal D = toOrdinal E) : D = E := by
  have hy : D.year = E.year :=
    le_antisymm (year_le_of_ord_le hD hE (le_of_eq h))
      (year_le_of_ord_le hE hD (le_of_eq h.symm))
  obtain ⟨d1, d2, d3, d4, d5⟩ := hD
  obtain ⟨e1, e2, e3, e4, e5⟩ := hE
  have h' := h
  unfold toOrdinal at h'
  rw [hy] at h' d5
  have hm : D.month = E.month := by
    by_contra hne
    rcases Nat.lt_or_ge D.month E.month with hlt | hge
    · have s1 : daysBeforeMonth E.year D.month + D.day ≤
          daysBeforeMonth E.year (D.month + 1) := by
        rw [daysBeforeMonth_succ _ _ d2]
        omega
      have s2 : daysBeforeMonth E.year (D.month + 1) ≤
          daysBeforeMonth E.year E.month :=
        daysBeforeMonth_mono _ (by omega)
      omega
    · have hlt' : E.month < D.month := by omega
      have s1 : daysBeforeMonth E.year E.month + E.day ≤
          daysBeforeMonth E.year (E.month + 1) := by
        rw [daysBeforeMonth_succ _ _ e2]
        omega
      have s2 : daysBeforeMonth E.year (E.month + 1) ≤
          daysBeforeMonth E.year D.month :=
        daysBeforeMonth_mono _ (by omega)
      omega
  have hd : D.day = E.day := by
    rw [hm] at h'
    omega
  cases D
  cases E
  simp only [PyDate.mk.injEq]
  exact ⟨hy, hm, hd⟩

/-! ## Lexicographic string lemmas for formatted dates -/

theorem daysInMonth_le (y m : Nat) : daysInMonth y m ≤ 31 := by
  unfold daysInMonth
  split_ifs <;> omega

theorem dig_lt (a b : Nat) : dig a < dig b ↔ a % 10 < b % 10 := by
  have ha : a % 10 < 10 := Nat.mod_lt _ (by omega)
  have hb : b % 10 < 10 := Nat.mod_lt _ (by omega)
  unfold dig
  generalize a % 10 = x at ha ⊢
  generalize b % 10 = y at hb ⊢
  interval_cases x <;> interval_cases y <;> decide

theorem dig_eq (a b : Nat) : dig a = dig b ↔ a % 10 = b % 10 := by
  have ha : a % 10 < 10 := Nat.mod_lt _ (by omega)
  have hb : b % 10 < 10 := Nat.mod_lt _ (by omega)
  unfold dig
  generalize a % 10 = x at ha ⊢
  generalize b % 10 = y at hb ⊢
  interval_cases x <;> interval_cases y <;> decide

theorem dig_isDigit (n : Nat) : (dig n).isDigit = true := by
  have h : n % 10 < 10 := Nat.mod_lt _ (by omega)
  unfold dig
  generalize n % 10 = x at h ⊢
  interval_cases x <;> decide

theorem charListLt_append_left (p x y : List Char) :
    charListLt (p ++ x) (p ++ y) = charListLt x y := by
  induction p with
  | nil => rfl
  | cons a p ih =>
    show charListLt (a :: (p ++ x)) (a :: (p ++ y)) = _
    simp [charListLt, ih]

theorem charListLt_append_of_lt : ∀ (x y u v : List Char),
    x.length = y.length → charListLt x y = true →
    charListLt (x ++ u) (y ++ v) = true
  | [], [], _, _, _, h => by simp [charListLt] at h
  | [], _ :: _, _, _, hlen, _ => by simp at hlen
  | _ :: _, [], _, _, hlen, _ => by simp at hlen
  | a :: as, b :: bs, u, v, hlen, h => by
    simp only [List.cons_append]
    simp only [charListLt] at h ⊢
    by_cases hab : a < b
    · rw [if_pos hab]
    · rw [if_neg hab] at h ⊢
      by_cases heq : a = b
      · rw [if_pos heq] at h ⊢
        exact charListLt_append_of_lt as bs u v (by simpa using hlen) h
      · rw [if_neg heq] at h
        exact absurd h (by simp)

theorem charListLt_trans : ∀ {a b c : List Char},
    charListLt a b = true → charListLt b c = true → charListLt a c = true
  | [], [], _, hab, _ => by simp [charListLt] at hab
  | [], _ :: _, [], _, hbc => by simp [charListLt] at hbc
  | [], _ :: _, _ :: _, _, _ => by simp [charListLt]
  | _ :: _, [], _, hab, _ => by simp [charListLt] at hab
  | _ :: _, _ :: _, [], _, hbc => by simp [charListLt] at hbc
  | a :: as, b :: bs, c :: cs, hab, hbc => by
    simp only [charListLt] at hab hbc ⊢
    by_cases h1 : a < b
    · by_cases h2 : b < c
      · rw [if_pos (lt_trans h1 h2)]
      · by_cases h3 : b = c
        · subst h3
          rw [if_pos h1]
        · rw [if_neg h2, if_neg h3] at hbc
          exact absurd hbc (by simp)
    · by_cases h1e : a = b
      · subst h1e
        rw [if_neg h1, if_pos rfl] at hab
        by_cases h2 : a < c
        · rw [if_pos h2]
        · by_cases h3 : a = c
          · subst h3
            rw [if_neg h2, if_pos rfl] at hbc ⊢
            exact charListLt_trans hab hbc
          · rw [if_neg h2, if_neg h3] at hbc
            exact absurd hbc (by simp)
      · rw [if_neg h1, if_neg h1e] at hab
        exact absurd hab (by simp)

theorem pad2_lt (a b : Nat) (hb : b < 100) (hab : a < b) :
    charListLt (pad2 a) (pad2 b) = true := by
  simp only [pad2, charListLt]
  by_cases h1 : dig (a / 10) < dig (b / 10)
  · rw [if_pos h1]
  · rw [if_neg h1]
    rw [dig_lt] at h1
    by_cases h2 : dig (a / 10) = dig (b / 10)
    · rw [if_pos h2]
      rw [dig_eq] at h2
      by_cases h3 : dig a < dig b
      · rw [if_pos h3]
      · exfalso
        rw [dig_lt] at h3
        omega
    · exfalso
      rw [dig_eq] at h2
      omega

theorem pad4_lt (a b : Nat) (hb : b < 10000) (hab : a < b) :
    charListLt (pad4 a) (pad4 b) = true := by
  simp only [pad4, charListLt]
  by_cases h1 : dig (a / 1000) < dig (b / 1000)
  · rw [if_pos h1]
  · rw [if_neg h1]
    rw [dig_lt] at h1
    by_cases e1 : dig (a / 1000) = dig (b / 1000)
    · rw [if_pos e1]
      rw [dig_eq] at e1
      by_cases h2 : dig (a / 100) < dig (b / 100)
      · rw [if_pos h2]
      · rw [if_neg h2]
        rw [dig_lt] at h2
        by_cases e2 : dig (a / 100) = dig (b / 100)
        · rw [if_pos e2]
          rw [dig_eq] at e2
          by_cases h3 : dig (a / 10) < dig (b / 10)
          · rw [if_pos h3]
          · rw [if_neg h3]
            rw [dig_lt] at h3
            by_cases e3 : dig (a / 10) = dig (b / 10)
            · rw [if_pos e3]
              rw [dig_eq] at e3
              by_cases h4 : dig a < dig b
              · rw [if_pos h4]
              · exfalso
                rw [dig_lt] at h4
                omega
            · exfalso
              rw [dig_eq] at e3
              omega
        · exfalso
          rw [dig_eq] at e2
          omega
    · exfalso
      rw [dig_eq] at e1
      omega

theorem charListLt_cons_same (a : Char) (x y : List Char) :
    charListLt (a :: x) (a :: y) = charListLt x y := by
  simp [charListLt]

theorem fmt_lt_nextDate {D : PyDate} (h : WfDate D)
    (hy : (nextDate D).year ≤ 9999) :
    strLt (fmtDate D) (fmtDate (nextDate D)) = true := by
  obtain ⟨h1, h2, h3, h4, h5⟩ := h
  unfold nextDate at hy ⊢
  unfold strLt
  split_ifs at hy ⊢ with hd hm
  · show charListLt
      (pad4 D.year ++ '-' :: (pad2 D.month ++ '-' :: pad2 D.day))
      (pad4 D.year ++ '-' :: (pad2 D.month ++ '-' :: pad2 (D.day + 1))) = true
    simp only [pad4, pad2, List.cons_append, List.nil_append, charListLt_cons_same]
    have hle : daysInMonth D.year D.month ≤ 31 := daysInMonth_le _ _
    exact pad2_lt D.day (D.day + 1) (by omega) (by omega)
  · show charListLt
      (pad4 D.year ++ '-' :: (pad2 D.month ++ '-' :: pad2 D.day))
      (pad4 D.year ++ '-' :: (pad2 (D.month + 1) ++ '-' :: pad2 1)) = true
    simp only [pad4, List.cons_append, List.nil_append, charListLt_cons_same]
    show charListLt (pad2 D.month ++ '-' :: pad2 D.day)
      (pad2 (D.month + 1) ++ '-' :: pad2 1) = true
    exact charListLt_append_of_lt _ _ _ _ rfl
      (pad2_lt D.month (D.month + 1) (by omega) (by omega))
  · show charListLt
      (pad4 D.year ++ '-' :: (pad2 D.month ++ '-' :: pad2 D.day))
      (pad4 (D.year + 1) ++ '-' :: (pad2 1 ++ '-' :: pad2 1)) = true
    have hy' : D.year + 1 ≤ 9999 := hy
    exact charListLt_append_of_lt _ _ _ _ rfl
      (pad4_lt D.year (D.year + 1) (by omega) (by omega))

theorem is_valid_date_fmtDate (D : PyDate) : is_valid_date (fmtDate D) = true := by
  show is_valid_date ⟨pad4 D.year ++ '-' :: (pad2 D.month ++ '-' :: pad2 D.day)⟩ = true
  simp only [is_valid_date, pad4, pad2, List.cons_append, List.nil_append]
  simp [dig_isDigit]

/-! ## Date Range Expander claim -/

/-- C2: for valid calendar dates, when `start_date <= end_date` the
expander produces exactly `(end_date - start_date).days + 1` date
strings (here expressed with ordinals), beginning with the formatted
start date and ending with the formatted end date, each matching
`YYYY-MM-DD`, and pairwise strictly increasing in lexicographic string
order; when `end_date < start_date` it produces the empty sequence
without raising. -/
theorem date_range_expander_spec (s e : PyDate)
    (hs : dateOk s = true) (he : dateOk e = true) :
    (toOrdinal s ≤ toOrdinal e →
      (date_list s e).length = toOrdinal e - toOrdinal s + 1 ∧
      (date_list s e).head? = some (fmtDate s) ∧
      (date_list s e).getLast? = some (fmtDate e) ∧
      (∀ x ∈ date_list s e, is_valid_date x = true) ∧
      List.Pairwise (fun a b => strLt a b = true) (date_list s e)) ∧
    (toOrdinal e < toOrdinal s → date_list s e = []) := by
  have hws : WfDate s := by
    unfold dateOk at hs
    simp only [Bool.and_eq_true, decide_eq_true_eq] at hs
    obtain ⟨⟨⟨⟨⟨a1, a2⟩, a3⟩, a4⟩, a5⟩, a6⟩ := hs
    exact ⟨a1, a3, a4, a5, a6⟩
  have hwe : WfDate e := by
    unfold dateOk at he
    simp only [Bool.and_eq_true, decide_eq_true_eq] at he
    obtain ⟨⟨⟨⟨⟨a1, a2⟩, a3⟩, a4⟩, a5⟩, a6⟩ := he
    exact ⟨a1, a3, a4, a5, a6⟩
  have hye : e.year ≤ 9999 := by
    unfold dateOk at he
    simp only [Bool.and_eq_true, decide_eq_true_eq] at he
    exact he.1.1.1.1.2
  constructor
  · intro hle
    have hk1 : (no_of_days s e + 1).toNat = (toOrdinal e - toOrdinal s) + 1 := by
      unfold no_of_days
      omega
    have step : ∀ j, toOrdinal s + (j + 1) ≤ toOrdinal e →
        strLt (fmtDate (addDays s j)) (fmtDate (addDays s (j + 1))) = true := by
      intro j hje
      rw [addDays_succ]
      apply fmt_lt_nextDate (wf_addDays hws j)
      rw [← addDays_succ]
      have hwN : WfDate (addDays s (j + 1)) := wf_addDays hws (j + 1)
      have hON : toOrdinal (addDays s (j + 1)) ≤ toOrdinal e := by
        rw [toOrdinal_addDays hws]
        omega
      have hyN := year_le_of_ord_le hwN hwe hON
      omega
    have growth : ∀ i j, i < j → toOrdinal s + j ≤ toOrdinal e →
        strLt (fmtDate (addDays s i)) (fmtDate (addDays s j)) = true := by
      intro i j hij
      induction j, hij using Nat.le_induction with
      | base =>
        intro hje
        exact step i hje
      | succ j hij ih =>
        intro hje
        have h1 := ih (by omega)
        have h2 := step j (by omega)
        exact charListLt_trans h1 h2
    refine ⟨?_, ?_, ?_, ?_, ?_⟩
    · rw [date_list, hk1]
      simp
    · rw [date_list, hk1, List.range_succ_eq_map]
      rfl
    · have hlast : addDays s (toOrdinal e - toOrdinal s) = e := by
        apply toOrdinal_inj (wf_addDays hws _) hwe
        rw [toOrdinal_addDays hws]
        omega
      rw [date_list, hk1, List.range_succ, List.map_append, List.map_cons,
        List.map_nil, List.getLast?_concat, hlast]
    · intro x hx
      rw [date_list] at hx
      rcases List.mem_map.mp hx with ⟨i, hi, rfl⟩
      exact is_valid_date_fmtDate _
    · rw [date_list, hk1]
      rw [List.pairwise_iff_getElem]
      intro i j hi hj hij
      simp only [List.length_map, List.length_range] at hi hj
      simp only [List.getElem_map, List.getElem_range]
      exact growth i j hij (by omega)
  · intro hlt
    have hzero : (no_of_days s e + 1).toNat = 0 := by
      unfold no_of_days
      omega
    rw [date_list, hzero]
    rfl

theorem date_range_expander_spec_witness :
    (date_list ⟨2024, 2, 28⟩ ⟨2024, 3, 1⟩).length =
      toOrdinal ⟨2024, 3, 1⟩ - toOrdinal ⟨2024, 2, 28⟩ + 1 :=
  ((date_range_expander_spec ⟨2024, 2, 28⟩ ⟨2024, 3, 1⟩ (by decide) (by decide)).1
    (by decide)).1
